import Mathlib

/-!
Shallow embedding of the geo-tui rendering core, translated from the
Python sources:

* `src/geo_tui/domain/entities/viewport.py`
* `src/geo_tui/domain/entities/map_data.py`
* `src/geo_tui/application/services/map_service.py`
* `src/geo_tui/infrastructure/rendering/braille_renderer.py`

Python floats are embedded as exact rationals (`ℚ`), Python ints as `ℤ`,
raising constructors as `Option`-returning functions.  Python `//` and `%`
on ints (with positive divisor) coincide with `Int.ediv` / `Int.emod`.
-/

namespace GeoTui

/-- `Viewport` from `domain/entities/viewport.py`: center in projected
coordinates and scale in meters per pixel. -/
structure Viewport where
  center_x : ℚ
  center_y : ℚ
  meters_per_pixel : ℚ
deriving Repr, DecidableEq

/-- The `(minx, miny, maxx, maxy)` tuple returned by `Viewport.get_bounds`. -/
structure Bounds where
  minx : ℚ
  miny : ℚ
  maxx : ℚ
  maxy : ℚ
deriving Repr, DecidableEq

/-- `Viewport.get_bounds(width_px, height_px)`. -/
def Viewport.get_bounds (v : Viewport) (width_px height_px : ℤ) : Bounds :=
  let half_width_m := ((width_px : ℚ) * v.meters_per_pixel) / 2
  let half_height_m := ((height_px : ℚ) * v.meters_per_pixel) / 2
  { minx := v.center_x - half_width_m
    miny := v.center_y - half_height_m
    maxx := v.center_x + half_width_m
    maxy := v.center_y + half_height_m }

/-- `Viewport.pan(delta_x, delta_y)`. -/
def Viewport.pan (v : Viewport) (delta_x delta_y : ℚ) : Viewport :=
  { v with center_x := v.center_x + delta_x, center_y := v.center_y + delta_y }

/-- `Viewport.zoom(factor)`: the body is exactly `self.meters_per_pixel *= factor`;
there is no validation of `factor` anywhere in the method. -/
def Viewport.zoom (v : Viewport) (factor : ℚ) : Viewport :=
  { v with meters_per_pixel := v.meters_per_pixel * factor }

/-- `Viewport.reset(center_x=0.0, center_y=0.0, meters_per_pixel=1_000_000.0)`
(defaults passed explicitly here). -/
def Viewport.reset (_v : Viewport) (center_x center_y meters_per_pixel : ℚ) : Viewport :=
  { center_x := center_x, center_y := center_y, meters_per_pixel := meters_per_pixel }

/-- `MapPoint` from `domain/entities/map_data.py`.  The Python `data` dict is
embedded as an optional association list. -/
structure MapPoint where
  longitude : ℚ
  latitude : ℚ
  data : Option (List (String × String))
deriving Repr, DecidableEq

/-- The `MapPoint` dataclass constructor together with `__post_init__`
validation: out-of-range coordinates raise `ValueError`, embedded as `none`. -/
def MapPoint.make (longitude latitude : ℚ) (data : Option (List (String × String))) :
    Option MapPoint :=
  if -180 ≤ longitude ∧ longitude ≤ 180 then
    if -90 ≤ latitude ∧ latitude ≤ 90 then
      some { longitude := longitude, latitude := latitude, data := data }
    else none
  else none

/-- `MapDataUpdate` from `domain/entities/map_data.py`. -/
structure MapDataUpdate where
  longitude : ℚ
  latitude : ℚ
  data : List (String × String)
deriving Repr, DecidableEq

/-- `MapDataUpdate.to_point()`: builds a `MapPoint` (whose constructor may
raise on invalid coordinates, hence `Option`). -/
def MapDataUpdate.to_point (u : MapDataUpdate) : Option MapPoint :=
  MapPoint.make u.longitude u.latitude (some u.data)

/-- The proximity test of `MapService.update_map_data`: both coordinates of
`existing` differ from `point` by strictly less than `0.0001`. -/
def nearPoint (existing point : MapPoint) : Prop :=
  |existing.longitude - point.longitude| < 1/10000 ∧
    |existing.latitude - point.latitude| < 1/10000

instance (p q : MapPoint) : Decidable (nearPoint p q) := by
  unfold nearPoint; infer_instance

/-- The `for i, existing_point in enumerate(self._points)` loop of
`MapService.update_map_data`: replace the first point within epsilon,
otherwise append. -/
def updateLoop (point : MapPoint) : List MapPoint → List MapPoint
  | [] => [point]
  | p :: rest =>
    if nearPoint p point then point :: rest
    else p :: updateLoop point rest

/-- `MapService.update_map_data(update)`, acting on the `_points` list.
`update.to_point()` runs first and may raise (hence `Option`). -/
def update_map_data (points : List MapPoint) (update : MapDataUpdate) :
    Option (List MapPoint) :=
  (update.to_point).map (fun point => updateLoop point points)

/-- `MapService._get_visible_points(viewport, width, height)`: the stored
points filtered through the injected `projection.project` against
`viewport.get_bounds(width * 2, height * 4)`. -/
def get_visible_points (project : ℚ → ℚ → ℚ × ℚ) (points : List MapPoint)
    (viewport : Viewport) (width height : ℤ) : List MapPoint :=
  if points.isEmpty then []
  else
    let b := viewport.get_bounds (width * 2) (height * 4)
    points.filter (fun point =>
      let xy := project point.longitude point.latitude
      decide (b.minx ≤ xy.1 ∧ xy.1 ≤ b.maxx ∧ b.miny ≤ xy.2 ∧ xy.2 ≤ b.maxy))

/-- The rectangle used by the point overlay filter
(`map_service.py` line 191): `viewport.get_bounds(width * 2, height * 4)`. -/
def filter_bounds (viewport : Viewport) (width height : ℤ) : Bounds :=
  viewport.get_bounds (width * 2) (height * 4)

/-- The rectangle the renderer displays (`braille_renderer.py` lines 149-154):
`px_w = cols * 2`, `px_h = rows * 4`, then `viewport.get_bounds(px_w, px_h)`. -/
def render_display_bounds (viewport : Viewport) (width height : ℤ) : Bounds :=
  viewport.get_bounds (width * 2) (height * 4)

/-- Width of a bounds rectangle. -/
def Bounds.width (b : Bounds) : ℚ := b.maxx - b.minx

/-- Height of a bounds rectangle. -/
def Bounds.height (b : Bounds) : ℚ := b.maxy - b.miny

/-- Membership of a projected point in a bounds rectangle, as tested by
`MapService._get_visible_points` (inclusive on all four sides). -/
def Bounds.containsPt (b : Bounds) (xy : ℚ × ℚ) : Prop :=
  b.minx ≤ xy.1 ∧ xy.1 ≤ b.maxx ∧ b.miny ≤ xy.2 ∧ xy.2 ≤ b.maxy

instance (b : Bounds) (xy : ℚ × ℚ) : Decidable (b.containsPt xy) := by
  unfold Bounds.containsPt; infer_instance

/-! ### Braille rasterizer (`infrastructure/rendering/braille_renderer.py`)

Subpixel coordinates are `ℤ` (Python ints).  Python `//` and `%` with the
positive divisors 2 and 4 coincide with `ℤ`'s `/` and `%` (Euclidean). -/

/-- Python `int()` truncation toward zero, applied to a rational. -/
def pyInt (q : ℚ) : ℤ := q.num.tdiv q.den

/-- `_BRAILLE_BASE = 0x2800`. -/
def BRAILLE_BASE : ℕ := 0x2800

/-- The `_DOT_BIT` dict keyed by `(subpixel_x, subpixel_y)`; the source's
eight keys `(0..1, 0..3)` are reproduced exactly (other keys, which would
raise `KeyError` and never occur, fall into the last branch). -/
def DOT_BIT (sx sy : ℤ) : ℕ :=
  if sx = 0 then
    if sy = 0 then 1 else if sy = 1 then 2 else if sy = 2 then 4 else 64
  else
    if sy = 0 then 8 else if sy = 1 then 16 else if sy = 2 then 32 else 128

/-- Exponent of the dot bit: `DOT_BIT sx sy = 2 ^ bitIndex sx sy` on the
eight table keys. -/
def bitIndex (sx sy : ℤ) : ℕ :=
  if sx = 0 then
    if sy = 0 then 0 else if sy = 1 then 1 else if sy = 2 then 2 else 6
  else
    if sy = 0 then 3 else if sy = 1 then 4 else if sy = 2 then 5 else 7

/-- `_empty_braille_grid(cols, rows)`: `rows × cols` of zero bitmasks. -/
def empty_braille_grid (cols rows : ℕ) : List (List ℕ) :=
  List.replicate rows (List.replicate cols 0)

/-- `_set_subpixel(grid, col, row, sx, sy)`: `|=` of the dot bit into cell
`(col, row)`, guarded by `0 <= row < len(grid) and 0 <= col < len(grid[0])`. -/
def set_subpixel (grid : List (List ℕ)) (col row sx sy : ℤ) : List (List ℕ) :=
  if 0 ≤ row ∧ row < grid.length ∧ 0 ≤ col ∧ col < (grid.headD []).length then
    grid.set row.toNat ((grid.getD row.toNat []).set col.toNat
      (((grid.getD row.toNat []).getD col.toNat 0) ||| DOT_BIT sx sy))
  else grid

/-- The body of the Bresenham loop for the current subpixel `(x0, y0)`
(`braille_renderer.py` lines 79-84): if it lies inside the canvas, set the
bit `_DOT_BIT[(x0 % 2, y0 % 4)]` of cell `(x0 // 2, y0 // 4)`; otherwise
leave the grid untouched. -/
def plotPoint (width_px height_px : ℤ) (grid : List (List ℕ)) (q : ℤ × ℤ) :
    List (List ℕ) :=
  if 0 ≤ q.1 ∧ q.1 < width_px ∧ 0 ≤ q.2 ∧ q.2 < height_px then
    set_subpixel grid (q.1 / 2) (q.2 / 4) (q.1 % 2) (q.2 % 4)
  else grid

/-- The error-accumulation step of the Bresenham loop
(`braille_renderer.py` lines 89-95): returns `(x0, y0, err)` after one
iteration's updates. -/
def bresStep (dx dy sx sy x0 y0 err : ℤ) : ℤ × ℤ × ℤ :=
  let e2 := 2 * err
  let x0n := if dy ≤ e2 then x0 + sx else x0
  let errx := if dy ≤ e2 then err + dy else err
  let y0n := if e2 ≤ dx then y0 + sy else y0
  let errn := if e2 ≤ dx then errx + dx else errx
  (x0n, y0n, errn)

/-- The sequence of subpixels visited by the Bresenham `while True` loop,
starting from state `(x0, y0, err)`.  The loop has no bound in the source;
here it carries fuel, and `bresPathAux_spec` proves that the fuel chosen in
`bresenham_path` always suffices to reach the `break`. -/
def bresPathAux (x1 y1 dx dy sx sy : ℤ) : ℕ → ℤ → ℤ → ℤ → List (ℤ × ℤ)
  | 0, _, _, _ => []
  | fuel + 1, x0, y0, err =>
    (x0, y0) ::
      (if x0 = x1 ∧ y0 = y1 then []
       else
         bresPathAux x1 y1 dx dy sx sy fuel
           (bresStep dx dy sx sy x0 y0 err).1
           (bresStep dx dy sx sy x0 y0 err).2.1
           (bresStep dx dy sx sy x0 y0 err).2.2)

/-- The Bresenham loop itself, threading the grid through `plotPoint`
exactly as `_rasterize_line_to_braille` does. -/
def rasterAux (x1 y1 dx dy sx sy width_px height_px : ℤ) :
    ℕ → ℤ → ℤ → ℤ → List (List ℕ) → List (List ℕ)
  | 0, _, _, _, grid => grid
  | fuel + 1, x0, y0, err, grid =>
    if x0 = x1 ∧ y0 = y1 then plotPoint width_px height_px grid (x0, y0)
    else
      rasterAux x1 y1 dx dy sx sy width_px height_px fuel
        (bresStep dx dy sx sy x0 y0 err).1
        (bresStep dx dy sx sy x0 y0 err).2.1
        (bresStep dx dy sx sy x0 y0 err).2.2
        (plotPoint width_px height_px grid (x0, y0))

/-- The Bresenham path of the segment `p0 → p1`: endpoints truncated by
`int()`, then `dx = abs(x1 - x0)`, `dy = -abs(y1 - y0)`,
`sx/sy = ±1`, `err = dx + dy` as in `_rasterize_line_to_braille`. -/
def bresenham_path (p0 p1 : ℚ × ℚ) : List (ℤ × ℤ) :=
  let x0 := pyInt p0.1
  let y0 := pyInt p0.2
  let x1 := pyInt p1.1
  let y1 := pyInt p1.2
  let dx := |x1 - x0|
  let dy := -|y1 - y0|
  let sx : ℤ := if x0 < x1 then 1 else -1
  let sy : ℤ := if y0 < y1 then 1 else -1
  bresPathAux x1 y1 dx dy sx sy ((dx - dy).toNat + 1) x0 y0 (dx + dy)

/-- `_rasterize_line_to_braille(grid, p0, p1, width_px, height_px)`. -/
def rasterize_line_to_braille (grid : List (List ℕ)) (p0 p1 : ℚ × ℚ)
    (width_px height_px : ℤ) : List (List ℕ) :=
  let x0 := pyInt p0.1
  let y0 := pyInt p0.2
  let x1 := pyInt p1.1
  let y1 := pyInt p1.2
  let dx := |x1 - x0|
  let dy := -|y1 - y0|
  let sx : ℤ := if x0 < x1 then 1 else -1
  let sy : ℤ := if y0 < y1 then 1 else -1
  rasterAux x1 y1 dx dy sx sy width_px height_px ((dx - dy).toNat + 1) x0 y0 (dx + dy) grid

/-- The mask stored in cell `(row r, column c)` of a grid (0 outside). -/
def cellVal (grid : List (List ℕ)) (r c : ℕ) : ℕ :=
  (grid.getD r []).getD c 0

/-- Whether the dot bit of subpixel `(x, y)` is set in its owning cell
`(x // 2, y // 4)` of the grid. -/
def subpixel_on (grid : List (List ℕ)) (x y : ℤ) : Bool :=
  Nat.testBit (cellVal grid (y / 4).toNat (x / 2).toNat) (bitIndex (x % 2) (y % 4))

/-- A rectangular `rows × cols` grid whose cell masks all stay below 256. -/
def GridOk (grid : List (List ℕ)) (rows cols : ℕ) : Prop :=
  grid.length = rows ∧ ∀ r ∈ grid, r.length = cols ∧ ∀ m ∈ r, m < 256

/-! ### The renderer pipeline (`BrailleRenderer.render`, list branch) -/

/-- One axis of an exact segment-versus-box clipping test: restrict the
parameter interval `t` of the segment point `a + t·d` to where that
coordinate lies in `[lo, hi]`. -/
def clip_axis (a d lo hi : ℚ) (t : ℚ × ℚ) : Option (ℚ × ℚ) :=
  if d = 0 then (if lo ≤ a ∧ a ≤ hi then some t else none)
  else
    some (max t.1 (min ((lo - a) / d) ((hi - a) / d)),
          min t.2 (max ((lo - a) / d) ((hi - a) / d)))

/-- Modelled from the shapely dependency used by the renderer's culling:
the closed segment `p → q` meets the solid axis-aligned box (there is a
`t ∈ [0, 1]` with `p + t·(q - p)` inside the rectangle). -/
def seg_intersects_box (p q : ℚ × ℚ) (b : Bounds) : Bool :=
  match clip_axis p.1 (q.1 - p.1) b.minx b.maxx (0, 1) with
  | none => false
  | some t =>
    match clip_axis p.2 (q.2 - p.2) b.miny b.maxy t with
    | none => false
    | some t2 => decide (t2.1 ≤ t2.2)

/-- Modelled from the shapely dependency:
`LineString(coords).intersects(box(minx, miny, maxx, maxy))` — some
consecutive segment of the polyline meets the box. -/
def linestring_intersects_box (coords : List (ℚ × ℚ)) (b : Bounds) : Bool :=
  (coords.zip coords.tail).any (fun pq => seg_intersects_box pq.1 pq.2 b)

/-- Modelled from the shapely dependency: `affine_transform` applied to one
vertex, with shapely's 2D matrix `[a, b, d, e, xoff, yoff]`. -/
def affine_point (a b d e xoff yoff : ℚ) (p : ℚ × ℚ) : ℚ × ℚ :=
  (a * p.1 + b * p.2 + xoff, d * p.1 + e * p.2 + yoff)

/-- The inner `draw_lines` helper of `BrailleRenderer.render` on one
linestring: rasterize every consecutive vertex pair in order. -/
def draw_linestring (grid : List (List ℕ)) (coords : List (ℚ × ℚ))
    (width_px height_px : ℤ) : List (List ℕ) :=
  (coords.zip coords.tail).foldl
    (fun g pq => rasterize_line_to_braille g pq.1 pq.2 width_px height_px) grid

/-- `_braille_grid_to_str(grid)`: row-major serialization; a cell becomes
`chr(0x2800 + mask)` when its mask is nonzero, otherwise a space; rows are
newline-joined.  `cols` is read from the first row, as in the source. -/
def braille_grid_to_str (grid : List (List ℕ)) : String :=
  let rows := grid.length
  let cols := if rows = 0 then 0 else (grid.headD []).length
  String.intercalate "\n" ((List.range rows).map (fun r =>
    String.mk ((List.range cols).map (fun c =>
      let code := (grid.getD r []).getD c 0
      if code ≠ 0 then Char.ofNat (BRAILLE_BASE + code) else ' '))))

/-- The body of `BrailleRenderer.render` after the dimension guard (list
branch): grid allocation, subpixel canvas `(width·2, height·4)`, viewport
bounds, simplify tolerance (computed, unused on this branch), culling by
box intersection, the affine map with `a = 1/scale`, `e = -1/scale`,
`c = -minx·a`, `f = maxy·(-e)`, and drawing every culled non-empty
linestring. -/
def render_draw_geoms (viewport : Viewport) (geometries : List (List (ℚ × ℚ)))
    (width height : ℤ) : List (List ℕ) :=
  let cols := width
  let rows := height
  let grid := empty_braille_grid cols.toNat rows.toNat
  let px_w := cols * 2
  let px_h := rows * 4
  let b := viewport.get_bounds px_w px_h
  let tol := max (viewport.meters_per_pixel * 1.5) 500
  let geometries_to_draw :=
    geometries.filter (fun geom => linestring_intersects_box geom b)
  let a := 1 / viewport.meters_per_pixel
  let e := -(1 / viewport.meters_per_pixel)
  let c := -b.minx * a
  let f := b.maxy * (-e)
  let _ := tol
  geometries_to_draw.foldl (fun g geom =>
    if geom.isEmpty then g
    else draw_linestring g (geom.map (affine_point a 0 0 e c f)) px_w px_h) grid

/-- `BrailleRenderer.render(viewport, geometries, width, height, points)`
on the plain-list-of-LineStrings branch (no geopandas): the `width <= 0 or
height <= 0` guard, then drawing (`render_draw_geoms`) and serialization.
The `points` argument is accepted and unused, as in the source. -/
def renderer_render (viewport : Viewport) (geometries : List (List (ℚ × ℚ)))
    (width height : ℤ) (_points : List MapPoint) : String :=
  if width ≤ 0 ∨ height ≤ 0 then ""
  else braille_grid_to_str (render_draw_geoms viewport geometries width height)

/-! ### Helper lemmas for `updateLoop` -/

theorem updateLoop_no_match (point : MapPoint) (points : List MapPoint)
    (h : ∀ q ∈ points, ¬ nearPoint q point) :
    updateLoop point points = points ++ [point] := by
  induction points with
  | nil => rfl
  | cons p rest ih =>
    have hp : ¬ nearPoint p point := h p (by simp)
    rw [updateLoop, if_neg hp, ih (fun q hq => h q (by simp [hq]))]
    simp

theorem updateLoop_first_match (point : MapPoint) (points : List MapPoint)
    (h : ∃ q ∈ points, nearPoint q point) :
    ∃ i, i < points.length ∧ nearPoint (points.getD i point) point ∧
      (∀ j, j < i → ¬ nearPoint (points.getD j point) point) ∧
      updateLoop point points = points.set i point := by
  induction points with
  | nil => simp at h
  | cons p rest ih =>
    by_cases hp : nearPoint p point
    · refine ⟨0, by simp, by simpa using hp, fun j hj => absurd hj (by omega), ?_⟩
      simp [updateLoop, hp]
    · have h2 : ∃ q ∈ rest, nearPoint q point := by
        obtain ⟨q, hq, hnear⟩ := h
        rcases List.mem_cons.mp hq with rfl | hq2
        · exact absurd hnear hp
        · exact ⟨q, hq2, hnear⟩
      obtain ⟨i, hi, hmatch, hfirst, heq⟩ := ih h2
      refine ⟨i + 1, by simpa using hi, by simpa using hmatch, ?_, ?_⟩
      · intro j hj
        match j with
        | 0 => simpa using hp
        | j + 1 => simpa using hfirst j (by omega)
      · simp [updateLoop, hp, heq]

/-! ### Claim theorems: viewport, points, point overlay -/

/-- Claim C1 (amended): `Viewport.zoom(factor)` multiplies the scale by
`factor` for every factor, including `factor ≤ 0`; no rejection or
validation takes place, and the center is untouched. -/
theorem zoom_always_multiplies (v : Viewport) (factor : ℚ) :
    (v.zoom factor).meters_per_pixel = v.meters_per_pixel * factor ∧
    (v.zoom factor).center_x = v.center_x ∧
    (v.zoom factor).center_y = v.center_y :=
  ⟨rfl, rfl, rfl⟩

/-- Claim C1 counterexample: the zoom factor `-2 ≤ 0` is not rejected:
`Viewport(0, 0, 1000).zoom(-2)` changes the scale from `1000` to `-2000`. -/
theorem zoom_nonpositive_factor_changes_scale :
    (-2 : ℚ) ≤ 0 ∧
      ((Viewport.mk 0 0 1000).zoom (-2)).meters_per_pixel = -2000 ∧
      ((Viewport.mk 0 0 1000).zoom (-2)).meters_per_pixel ≠ 1000 := by
  refine ⟨by norm_num, ?_, ?_⟩ <;> norm_num [Viewport.zoom]

/-- Claim C2 (amended): `_get_visible_points` retains exactly the points
whose projection falls inside (inclusively) the rectangle
`viewport.get_bounds(width * 2, height * 4)`, and that rectangle is
identical to the one the renderer displays for the same viewport and
display size — it is not enlarged. -/
theorem visible_points_filter_matches_render_bounds (project : ℚ → ℚ → ℚ × ℚ)
    (points : List MapPoint) (viewport : Viewport) (width height : ℤ) :
    get_visible_points project points viewport width height =
      points.filter (fun point =>
        decide ((render_display_bounds viewport width height).containsPt
          (project point.longitude point.latitude))) ∧
    filter_bounds viewport width height = render_display_bounds viewport width height := by
  refine ⟨?_, rfl⟩
  unfold get_visible_points render_display_bounds
  by_cases h : points.isEmpty
  · rw [if_pos h]
    rw [List.isEmpty_iff] at h
    subst h
    rfl
  · rw [if_neg h]
    refine List.filter_congr (fun p _ => ?_)
    rw [decide_eq_decide]
    unfold Bounds.containsPt
    exact Iff.rfl

/-- Claim C2 counterexample: at `Viewport(0, 0, 1)` with display size
`10 × 5`, the point-filter rectangle has exactly the same width and height
as the rectangle the renderer displays, so it is not strictly wider and
taller. -/
theorem filter_rect_not_strictly_larger :
    (filter_bounds ⟨0, 0, 1⟩ 10 5).width = (render_display_bounds ⟨0, 0, 1⟩ 10 5).width ∧
    (filter_bounds ⟨0, 0, 1⟩ 10 5).height = (render_display_bounds ⟨0, 0, 1⟩ 10 5).height ∧
    ¬((filter_bounds ⟨0, 0, 1⟩ 10 5).width > (render_display_bounds ⟨0, 0, 1⟩ 10 5).width ∧
      (filter_bounds ⟨0, 0, 1⟩ 10 5).height > (render_display_bounds ⟨0, 0, 1⟩ 10 5).height) := by
  norm_num [filter_bounds, render_display_bounds, Viewport.get_bounds,
    Bounds.width, Bounds.height]

/-- Claim C5: for positive pixel dimensions, `get_bounds` is a rectangle
centered on the viewport center with width `width_px * scale` and height
`height_px * scale`, and the concrete scenario
`Viewport(0, 0, 1_000_000).get_bounds(200, 100)` evaluates to
`(-100000000, -50000000, 100000000, 50000000)`. -/
theorem get_bounds_centered_exact (v : Viewport) (width_px height_px : ℤ)
    (hw : 0 < width_px) (hh : 0 < height_px) :
    ((v.get_bounds width_px height_px).minx + (v.get_bounds width_px height_px).maxx) / 2
        = v.center_x ∧
    ((v.get_bounds width_px height_px).miny + (v.get_bounds width_px height_px).maxy) / 2
        = v.center_y ∧
    (v.get_bounds width_px height_px).width = (width_px : ℚ) * v.meters_per_pixel ∧
    (v.get_bounds width_px height_px).height = (height_px : ℚ) * v.meters_per_pixel ∧
    Viewport.get_bounds ⟨0, 0, 1000000⟩ 200 100 =
      ⟨-100000000, -50000000, 100000000, 50000000⟩ := by
  refine ⟨?_, ?_, ?_, ?_, ?_⟩ <;>
    simp [Viewport.get_bounds, Bounds.width, Bounds.height] <;> ring_nf
  norm_num [Bounds.mk.injEq]

/-- Witness for C5 at `Viewport(0, 0, 1_000_000)` and display `200 × 100`. -/
theorem get_bounds_centered_exact_witness :
    (0 : ℤ) < 200 ∧ (0 : ℤ) < 100 ∧
    (((Viewport.mk 0 0 1000000).get_bounds 200 100).minx
          + ((Viewport.mk 0 0 1000000).get_bounds 200 100).maxx) / 2
        = (Viewport.mk 0 0 1000000).center_x ∧
    (((Viewport.mk 0 0 1000000).get_bounds 200 100).miny
          + ((Viewport.mk 0 0 1000000).get_bounds 200 100).maxy) / 2
        = (Viewport.mk 0 0 1000000).center_y ∧
    ((Viewport.mk 0 0 1000000).get_bounds 200 100).width
        = (200 : ℚ) * (Viewport.mk 0 0 1000000).meters_per_pixel ∧
    ((Viewport.mk 0 0 1000000).get_bounds 200 100).height
        = (100 : ℚ) * (Viewport.mk 0 0 1000000).meters_per_pixel ∧
    Viewport.get_bounds ⟨0, 0, 1000000⟩ 200 100 =
      ⟨-100000000, -50000000, 100000000, 50000000⟩ :=
  ⟨by decide, by decide,
    get_bounds_centered_exact ⟨0, 0, 1000000⟩ 200 100 (by decide) (by decide)⟩

/-- Claim C9: `MapPoint` construction succeeds exactly when the longitude is
in `[-180, 180]` and the latitude in `[-90, 90]`; on success the stored
coordinates are the given ones (never clamped); longitude `200` and
latitude `-95` are rejected. -/
theorem map_point_construction_validates (lon lat : ℚ)
    (data : Option (List (String × String))) :
    ((MapPoint.make lon lat data).isSome ↔
      (-180 ≤ lon ∧ lon ≤ 180 ∧ -90 ≤ lat ∧ lat ≤ 90)) ∧
    (∀ p, MapPoint.make lon lat data = some p →
      p.longitude = lon ∧ p.latitude = lat ∧ p.data = data) ∧
    MapPoint.make 200 0 none = none ∧
    MapPoint.make 0 (-95) none = none := by
  refine ⟨?_, ?_, by norm_num [MapPoint.make], by norm_num [MapPoint.make]⟩
  · unfold MapPoint.make
    split_ifs with h1 h2
    · simpa using ⟨h1.1, h1.2, h2.1, h2.2⟩
    · simpa using fun _ _ => h2
    · simp only [Option.isSome_none, Bool.false_eq_true, false_iff]
      tauto
  · intro p hp
    unfold MapPoint.make at hp
    split_ifs at hp
    rw [Option.some_inj] at hp
    subst hp
    exact ⟨rfl, rfl, rfl⟩

/-- Witness for C9 at longitude `45`, latitude `-30`. -/
theorem map_point_construction_validates_witness :
    ((MapPoint.make 45 (-30) none).isSome ↔
      ((-180 : ℚ) ≤ 45 ∧ (45 : ℚ) ≤ 180 ∧ (-90 : ℚ) ≤ -30 ∧ (-30 : ℚ) ≤ 90)) ∧
    (∀ p, MapPoint.make 45 (-30) none = some p →
      p.longitude = 45 ∧ p.latitude = -30 ∧ p.data = none) ∧
    MapPoint.make 200 0 none = none ∧
    MapPoint.make 0 (-95) none = none :=
  map_point_construction_validates 45 (-30) none

/-- Claim C8: an update whose coordinates are each within `1e-4` of an
existing point replaces the first such point in place (same length, no
duplicate); otherwise it is appended; and the concrete scenario: a point at
`(45.0, -30.0)` is replaced by an update at `(45.00005, -30.00003)`. -/
theorem update_map_data_replace_or_append (points : List MapPoint)
    (update : MapDataUpdate) (point : MapPoint)
    (hp : update.to_point = some point) :
    ((∀ q ∈ points, ¬ nearPoint q point) →
      update_map_data points update = some (points ++ [point])) ∧
    ((∃ q ∈ points, nearPoint q point) →
      ∃ i, i < points.length ∧ nearPoint (points.getD i point) point ∧
        (∀ j, j < i → ¬ nearPoint (points.getD j point) point) ∧
        update_map_data points update = some (points.set i point) ∧
        (points.set i point).length = points.length) ∧
    update_map_data [⟨45, -30, none⟩] ⟨45.00005, -30.00003, []⟩ =
      some [⟨45.00005, -30.00003, some []⟩] := by
  refine ⟨?_, ?_, ?_⟩
  · intro h
    rw [update_map_data, hp, Option.map_some', updateLoop_no_match point points h]
  · intro h
    obtain ⟨i, hi, hmatch, hfirst, heq⟩ := updateLoop_first_match point points h
    exact ⟨i, hi, hmatch, hfirst,
      by rw [update_map_data, hp, Option.map_some', heq], by simp⟩
  · norm_num [update_map_data, MapDataUpdate.to_point, MapPoint.make,
      updateLoop, nearPoint, abs_lt]

/-- Witness for C8 at the scenario inputs. -/
theorem update_map_data_replace_or_append_witness :
    (MapDataUpdate.to_point ⟨45.00005, -30.00003, []⟩
        = some ⟨45.00005, -30.00003, some []⟩) ∧
    (((∀ q ∈ [(⟨45, -30, none⟩ : MapPoint)],
        ¬ nearPoint q ⟨45.00005, -30.00003, some []⟩) →
      update_map_data [⟨45, -30, none⟩] ⟨45.00005, -30.00003, []⟩ =
        some ([(⟨45, -30, none⟩ : MapPoint)] ++ [⟨45.00005, -30.00003, some []⟩])) ∧
    ((∃ q ∈ [(⟨45, -30, none⟩ : MapPoint)],
        nearPoint q ⟨45.00005, -30.00003, some []⟩) →
      ∃ i, i < [(⟨45, -30, none⟩ : MapPoint)].length ∧
        nearPoint ([(⟨45, -30, none⟩ : MapPoint)].getD i ⟨45.00005, -30.00003, some []⟩)
          ⟨45.00005, -30.00003, some []⟩ ∧
        (∀ j, j < i →
          ¬ nearPoint ([(⟨45, -30, none⟩ : MapPoint)].getD j ⟨45.00005, -30.00003, some []⟩)
            ⟨45.00005, -30.00003, some []⟩) ∧
        update_map_data [⟨45, -30, none⟩] ⟨45.00005, -30.00003, []⟩ =
          some ([(⟨45, -30, none⟩ : MapPoint)].set i ⟨45.00005, -30.00003, some []⟩) ∧
        ([(⟨45, -30, none⟩ : MapPoint)].set i ⟨45.00005, -30.00003, some []⟩).length =
          [(⟨45, -30, none⟩ : MapPoint)].length) ∧
    update_map_data [⟨45, -30, none⟩] ⟨45.00005, -30.00003, []⟩ =
      some [⟨45.00005, -30.00003, some []⟩]) :=
  ⟨by norm_num [MapDataUpdate.to_point, MapPoint.make],
    update_map_data_replace_or_append [⟨45, -30, none⟩] ⟨45.00005, -30.00003, []⟩
      ⟨45.00005, -30.00003, some []⟩
      (by norm_num [MapDataUpdate.to_point, MapPoint.make])⟩

/-! ### Bresenham loop invariant -/

/-- Key invariant of the Bresenham `while True` loop.  `u` and `v` are the
remaining (signed-direction) distances to the endpoint along x and y; from
any state satisfying the error-term invariant the loop reaches `(x1, y1)`
within the fuel, the emitted point list starts at the current point, ends
at the endpoint, and is strictly increasing along the direction functional
`sx·x + sy·y` (each iteration advances x, y, or both by one step toward the
endpoint and never overshoots). -/
theorem bresPathAux_spec (x1 y1 dx dy sx sy : ℤ)
    (hsx : sx = 1 ∨ sx = -1) (hsy : sy = 1 ∨ sy = -1) :
    ∀ (fuel : ℕ) (x0 y0 err u v : ℤ),
      u = sx * (x1 - x0) → v = sy * (y1 - y0) →
      0 ≤ u → u ≤ dx → 0 ≤ v → v ≤ -dy →
      err = dx + dy + (-dy - v) * dx + (dx - u) * dy →
      u + v < (fuel : ℤ) →
      (bresPathAux x1 y1 dx dy sx sy fuel x0 y0 err).head? = some (x0, y0) ∧
      (bresPathAux x1 y1 dx dy sx sy fuel x0 y0 err).getLast? = some (x1, y1) ∧
      List.Chain' (fun a c => sx * a.1 + sy * a.2 < sx * c.1 + sy * c.2)
        (bresPathAux x1 y1 dx dy sx sy fuel x0 y0 err) := by
  have hsx2 : sx * sx = 1 := by rcases hsx with rfl | rfl <;> norm_num
  have hsy2 : sy * sy = 1 := by rcases hsy with rfl | rfl <;> norm_num
  intro fuel
  induction fuel with
  | zero =>
    intro x0 y0 err u v _ _ hu0 _ hv0 _ _ hfuel
    exact absurd hfuel (by push_cast; omega)
  | succ f ih =>
    intro x0 y0 err u v hu hv hu0 hud hv0 hvd herr hfuel
    have hdx : 0 ≤ dx := le_trans hu0 hud
    have hdy : dy ≤ -v := by omega
    by_cases hend : x0 = x1 ∧ y0 = y1
    · obtain ⟨rfl, rfl⟩ := hend
      simp [bresPathAux, List.chain'_singleton]
    · have huv : ¬(u = 0 ∧ v = 0) := by
        rintro ⟨h1, h2⟩
        apply hend
        constructor
        · rcases hsx with rfl | rfl <;> omega
        · rcases hsy with rfl | rfl <;> omega
      have hxstop : dy ≤ 2 * err → u ≠ 0 := by
        intro hmx h0
        have hv1 : 1 ≤ v := by omega
        have herr0 : err = dx + dy - v * dx := by rw [herr, h0]; ring
        nlinarith [mul_nonneg hdx (by omega : (0:ℤ) ≤ v - 1)]
      have hystop : 2 * err ≤ dx → v ≠ 0 := by
        intro hmy h0
        have hu1 : 1 ≤ u := by omega
        have herr0 : err = dx + dy - u * dy := by rw [herr, h0]; ring
        nlinarith [mul_nonneg (by omega : (0:ℤ) ≤ -dy) (by omega : (0:ℤ) ≤ u - 1)]
      by_cases hmx : dy ≤ 2 * err <;> by_cases hmy : 2 * err ≤ dx
      · -- diagonal step
        have hu1 : 1 ≤ u := by have := hxstop hmx; omega
        have hv1 : 1 ≤ v := by have := hystop hmy; omega
        have hstep : bresStep dx dy sx sy x0 y0 err = (x0 + sx, y0 + sy, err + dy + dx) := by
          simp [bresStep, hmx, hmy]
        have hunf : bresPathAux x1 y1 dx dy sx sy (f + 1) x0 y0 err
            = (x0, y0) :: bresPathAux x1 y1 dx dy sx sy f (x0 + sx) (y0 + sy) (err + dy + dx) := by
          rw [bresPathAux, if_neg hend, hstep]
        obtain ⟨ihh, ihl, ihc⟩ := ih (x0 + sx) (y0 + sy) (err + dy + dx) (u - 1) (v - 1)
          (by linear_combination hu + hsx2) (by linear_combination hv + hsy2)
          (by omega) (by omega) (by omega) (by omega)
          (by rw [herr]; ring) (by push_cast; push_cast at hfuel; omega)
        refine ⟨by rw [hunf]; rfl, ?_, ?_⟩
        · rw [hunf]
          have hne2 : bresPathAux x1 y1 dx dy sx sy f (x0 + sx) (y0 + sy) (err + dy + dx) ≠ [] := by
            intro hnil; rw [hnil] at ihh; simp at ihh
          obtain ⟨hd, tl, heq2⟩ := List.exists_cons_of_ne_nil hne2
          rw [heq2] at ihl ⊢
          rw [List.getLast?_cons_cons]
          exact ihl
        · rw [hunf, List.chain'_cons']
          refine ⟨?_, ihc⟩
          intro y hy
          rw [ihh] at hy
          simp only [Option.mem_def, Option.some_inj] at hy
          subst hy
          dsimp only
          have : sx * (x0 + sx) + sy * (y0 + sy) = sx * x0 + sy * y0 + 2 := by
            linear_combination hsx2 + hsy2
          omega
      · -- x-only step
        have hu1 : 1 ≤ u := by have := hxstop hmx; omega
        have hstep : bresStep dx dy sx sy x0 y0 err = (x0 + sx, y0, err + dy) := by
          simp [bresStep, hmx, hmy]
        have hunf : bresPathAux x1 y1 dx dy sx sy (f + 1) x0 y0 err
            = (x0, y0) :: bresPathAux x1 y1 dx dy sx sy f (x0 + sx) y0 (err + dy) := by
          rw [bresPathAux, if_neg hend, hstep]
        obtain ⟨ihh, ihl, ihc⟩ := ih (x0 + sx) y0 (err + dy) (u - 1) v
          (by linear_combination hu + hsx2) (hv)
          (by omega) (by omega) (by omega) (by omega)
          (by rw [herr]; ring) (by push_cast; push_cast at hfuel; omega)
        refine ⟨by rw [hunf]; rfl, ?_, ?_⟩
        · rw [hunf]
          have hne2 : bresPathAux x1 y1 dx dy sx sy f (x0 + sx) y0 (err + dy) ≠ [] := by
            intro hnil; rw [hnil] at ihh; simp at ihh
          obtain ⟨hd, tl, heq2⟩ := List.exists_cons_of_ne_nil hne2
          rw [heq2] at ihl ⊢
          rw [List.getLast?_cons_cons]
          exact ihl
        · rw [hunf, List.chain'_cons']
          refine ⟨?_, ihc⟩
          intro y hy
          rw [ihh] at hy
          simp only [Option.mem_def, Option.some_inj] at hy
          subst hy
          dsimp only
          have : sx * (x0 + sx) + sy * y0 = sx * x0 + sy * y0 + 1 := by
            linear_combination hsx2
          omega
      · -- y-only step
        have hv1 : 1 ≤ v := by have := hystop hmy; omega
        have hstep : bresStep dx dy sx sy x0 y0 err = (x0, y0 + sy, err + dx) := by
          simp [bresStep, hmx, hmy]
        have hunf : bresPathAux x1 y1 dx dy sx sy (f + 1) x0 y0 err
            = (x0, y0) :: bresPathAux x1 y1 dx dy sx sy f x0 (y0 + sy) (err + dx) := by
          rw [bresPathAux, if_neg hend, hstep]
        obtain ⟨ihh, ihl, ihc⟩ := ih x0 (y0 + sy) (err + dx) u (v - 1)
          (hu) (by linear_combination hv + hsy2)
          (by omega) (by omega) (by omega) (by omega)
          (by rw [herr]; ring) (by push_cast; push_cast at hfuel; omega)
        refine ⟨by rw [hunf]; rfl, ?_, ?_⟩
        · rw [hunf]
          have hne2 : bresPathAux x1 y1 dx dy sx sy f x0 (y0 + sy) (err + dx) ≠ [] := by
            intro hnil; rw [hnil] at ihh; simp at ihh
          obtain ⟨hd, tl, heq2⟩ := List.exists_cons_of_ne_nil hne2
          rw [heq2] at ihl ⊢
          rw [List.getLast?_cons_cons]
          exact ihl
        · rw [hunf, List.chain'_cons']
          refine ⟨?_, ihc⟩
          intro y hy
          rw [ihh] at hy
          simp only [Option.mem_def, Option.some_inj] at hy
          subst hy
          dsimp only
          have : sx * x0 + sy * (y0 + sy) = sx * x0 + sy * y0 + 1 := by
            linear_combination hsy2
          omega
      · -- impossible: at least one of the two guards always fires
        exact absurd hmy (by omega)

/-- `bresPathAux` run from the canonical initial state of
`_rasterize_line_to_braille`: the emitted list starts at `(x0, y0)`, ends
at `(x1, y1)` (the loop always reaches its `break`), and has no duplicate
subpixels. -/
theorem bresPath_run (x0 y0 x1 y1 : ℤ) :
    (bresPathAux x1 y1 |x1 - x0| (-|y1 - y0|)
        (if x0 < x1 then 1 else -1) (if y0 < y1 then 1 else -1)
        ((|x1 - x0| - -|y1 - y0|).toNat + 1) x0 y0
        (|x1 - x0| + -|y1 - y0|)).head? = some (x0, y0) ∧
    (bresPathAux x1 y1 |x1 - x0| (-|y1 - y0|)
        (if x0 < x1 then 1 else -1) (if y0 < y1 then 1 else -1)
        ((|x1 - x0| - -|y1 - y0|).toNat + 1) x0 y0
        (|x1 - x0| + -|y1 - y0|)).getLast? = some (x1, y1) ∧
    (bresPathAux x1 y1 |x1 - x0| (-|y1 - y0|)
        (if x0 < x1 then 1 else -1) (if y0 < y1 then 1 else -1)
        ((|x1 - x0| - -|y1 - y0|).toNat + 1) x0 y0
        (|x1 - x0| + -|y1 - y0|)).Nodup := by
  have hsx : (if x0 < x1 then (1:ℤ) else -1) = 1 ∨ (if x0 < x1 then (1:ℤ) else -1) = -1 := by
    by_cases h : x0 < x1 <;> simp [h]
  have hsy : (if y0 < y1 then (1:ℤ) else -1) = 1 ∨ (if y0 < y1 then (1:ℤ) else -1) = -1 := by
    by_cases h : y0 < y1 <;> simp [h]
  have hu : |x1 - x0| = (if x0 < x1 then (1:ℤ) else -1) * (x1 - x0) := by
    by_cases h : x0 < x1
    · rw [if_pos h, one_mul, abs_of_nonneg (by omega)]
    · rw [if_neg h]
      rcases abs_cases (x1 - x0) with ⟨he, h2⟩ | ⟨he, h2⟩ <;> rw [he] <;> omega
  have hv : |y1 - y0| = (if y0 < y1 then (1:ℤ) else -1) * (y1 - y0) := by
    by_cases h : y0 < y1
    · rw [if_pos h, one_mul, abs_of_nonneg (by omega)]
    · rw [if_neg h]
      rcases abs_cases (y1 - y0) with ⟨he, h2⟩ | ⟨he, h2⟩ <;> rw [he] <;> omega
  obtain ⟨hh, hl, hc⟩ := bresPathAux_spec x1 y1 |x1 - x0| (-|y1 - y0|)
    (if x0 < x1 then 1 else -1) (if y0 < y1 then 1 else -1) hsx hsy
    ((|x1 - x0| - -|y1 - y0|).toNat + 1) x0 y0
    (|x1 - x0| + -|y1 - y0|) |x1 - x0| |y1 - y0|
    hu hv (abs_nonneg _) le_rfl (abs_nonneg _) (le_of_eq (neg_neg _).symm)
    (by ring)
    (by
      have h0 : (0:ℤ) ≤ |x1 - x0| + |y1 - y0| := by positivity
      rw [sub_neg_eq_add]
      push_cast [Int.toNat_of_nonneg h0]
      linarith)
  refine ⟨hh, hl, ?_⟩
  have hmap : List.Chain' (· < ·)
      ((bresPathAux x1 y1 |x1 - x0| (-|y1 - y0|)
          (if x0 < x1 then 1 else -1) (if y0 < y1 then 1 else -1)
          ((|x1 - x0| - -|y1 - y0|).toNat + 1) x0 y0
          (|x1 - x0| + -|y1 - y0|)).map
        (fun a => (if x0 < x1 then (1:ℤ) else -1) * a.1
          + (if y0 < y1 then (1:ℤ) else -1) * a.2)) := by
    rw [List.chain'_map]
    exact hc
  exact List.Nodup.of_map _ ((List.chain'_iff_pairwise.mp hmap).nodup)

/-- `bresenham_path` starts at the truncated start point, ends at the
truncated endpoint and visits no subpixel twice. -/
theorem bresenham_path_basic (p0 p1 : ℚ × ℚ) :
    (bresenham_path p0 p1).head? = some (pyInt p0.1, pyInt p0.2) ∧
    (bresenham_path p0 p1).getLast? = some (pyInt p1.1, pyInt p1.2) ∧
    (bresenham_path p0 p1).Nodup := by
  have h := bresPath_run (pyInt p0.1) (pyInt p0.2) (pyInt p1.1) (pyInt p1.2)
  simpa [bresenham_path] using h

/-- The rasterization loop is the fold of its per-subpixel body over the
Bresenham path. -/
theorem rasterAux_eq_foldl (x1 y1 dx dy sx sy width_px height_px : ℤ) :
    ∀ (fuel : ℕ) (x0 y0 err : ℤ) (grid : List (List ℕ)),
      rasterAux x1 y1 dx dy sx sy width_px height_px fuel x0 y0 err grid
        = (bresPathAux x1 y1 dx dy sx sy fuel x0 y0 err).foldl
            (plotPoint width_px height_px) grid := by
  intro fuel
  induction fuel with
  | zero => intro x0 y0 err grid; rfl
  | succ f ih =>
    intro x0 y0 err grid
    rw [rasterAux, bresPathAux]
    by_cases hend : x0 = x1 ∧ y0 = y1
    · rw [if_pos hend, if_pos hend]
      rfl
    · rw [if_neg hend, if_neg hend, List.foldl_cons, ih]

/-- `_rasterize_line_to_braille` is the fold of the per-subpixel body over
`bresenham_path`. -/
theorem rasterize_eq_foldl (grid : List (List ℕ)) (p0 p1 : ℚ × ℚ)
    (width_px height_px : ℤ) :
    rasterize_line_to_braille grid p0 p1 width_px height_px
      = (bresenham_path p0 p1).foldl (plotPoint width_px height_px) grid := by
  simp only [rasterize_line_to_braille, bresenham_path]
  exact rasterAux_eq_foldl ..

/-- Folding a grid-update over a list equals folding over the sublist of
elements the body actually acts on, when the body ignores the rest. -/
theorem foldl_filter_of_id {α β : Type} (f : β → α → β) (p : α → Bool)
    (hf : ∀ b a, p a = false → f b a = b) :
    ∀ (l : List α) (b : β), l.foldl f b = (l.filter p).foldl f b := by
  intro l
  induction l with
  | nil => intro b; rfl
  | cons a t ih =>
    intro b
    rw [List.foldl_cons, List.filter_cons]
    by_cases hp : p a
    · rw [if_pos hp, List.foldl_cons, ih]
    · rw [if_neg hp, hf b a (by simpa using hp), ih]

/-! ### Grid lemmas -/

/-- Every value in the `_DOT_BIT` table is below 256. -/
theorem DOT_BIT_lt (sx sy : ℤ) : DOT_BIT sx sy < 256 := by
  unfold DOT_BIT
  split_ifs <;> norm_num

/-- Every `_DOT_BIT` value is the power of two given by `bitIndex`. -/
theorem DOT_BIT_eq_two_pow (sx sy : ℤ) : DOT_BIT sx sy = 2 ^ bitIndex sx sy := by
  unfold DOT_BIT bitIndex
  split_ifs <;> norm_num

/-- On the dot positions `(0..1, 0..3)` the `bitIndex` exponents are all
distinct. -/
theorem bitIndex_inj (s t s2 t2 : ℤ)
    (hs : 0 ≤ s) (hs1 : s < 2) (ht : 0 ≤ t) (ht1 : t < 4)
    (hs2 : 0 ≤ s2) (hs21 : s2 < 2) (ht2 : 0 ≤ t2) (ht21 : t2 < 4)
    (h : bitIndex s t = bitIndex s2 t2) : s = s2 ∧ t = t2 := by
  have e1 : s = 0 ∨ s = 1 := by omega
  have e2 : t = 0 ∨ t = 1 ∨ t = 2 ∨ t = 3 := by omega
  have e3 : s2 = 0 ∨ s2 = 1 := by omega
  have e4 : t2 = 0 ∨ t2 = 1 ∨ t2 = 2 ∨ t2 = 3 := by omega
  rcases e1 with rfl | rfl <;> rcases e2 with rfl | rfl | rfl | rfl <;>
    rcases e3 with rfl | rfl <;> rcases e4 with rfl | rfl | rfl | rfl <;>
    simp_all [bitIndex]

/-- The all-zero grid is a well-formed `rows × cols` grid. -/
theorem gridOk_empty (cols rows : ℕ) : GridOk (empty_braille_grid cols rows) rows cols := by
  refine ⟨by simp [empty_braille_grid], ?_⟩
  intro r hr
  have hr2 := List.eq_of_mem_replicate hr
  subst hr2
  refine ⟨by simp, ?_⟩
  intro m hm
  have := List.eq_of_mem_replicate hm
  omega

/-- `getD` at an in-range index is plain indexing. -/
theorem getD_of_lt {α : Type} (l : List α) (d : α) (i : ℕ) (h : i < l.length) :
    l.getD i d = l.get ⟨i, h⟩ := by
  rw [List.getD_eq_getElem?_getD, List.getElem?_eq_getElem h, Option.getD_some,
    List.get_eq_getElem]

/-- `getD` past the end gives the default. -/
theorem getD_of_ge {α : Type} (l : List α) (d : α) (i : ℕ) (h : l.length ≤ i) :
    l.getD i d = d := by
  rw [List.getD_eq_getElem?_getD, List.getElem?_eq_none h, Option.getD_none]

/-- Every cell of the all-zero grid holds 0. -/
theorem cellVal_empty (cols rows r c : ℕ) : cellVal (empty_braille_grid cols rows) r c = 0 := by
  unfold cellVal empty_braille_grid
  rcases lt_or_ge r rows with h | h
  · have h1 : (List.replicate rows (List.replicate cols (0:ℕ))).getD r []
        = List.replicate cols 0 := by
      rw [getD_of_lt _ _ _ (by simpa using h), List.get_eq_getElem, List.getElem_replicate]
    rw [h1]
    rcases lt_or_ge c cols with h2 | h2
    · rw [getD_of_lt _ _ _ (by simpa using h2), List.get_eq_getElem, List.getElem_replicate]
    · rw [getD_of_ge _ _ _ (by simpa using h2)]
  · have h1 : (List.replicate rows (List.replicate cols (0:ℕ))).getD r [] = [] :=
      getD_of_ge _ _ _ (by simpa using h)
    rw [h1]
    simp

/-- No subpixel is set in the all-zero grid. -/
theorem subpixel_on_empty (cols rows : ℕ) (x y : ℤ) :
    subpixel_on (empty_braille_grid cols rows) x y = false := by
  unfold subpixel_on
  rw [cellVal_empty]
  exact Nat.zero_testBit _

/-- Updating one cell changes exactly that cell of `cellVal`. -/
theorem cellVal_set (grid : List (List ℕ)) (R C : ℕ) (val : ℕ)
    (hR : R < grid.length) (hC : C < (grid.getD R []).length) (i j : ℕ) :
    cellVal (grid.set R ((grid.getD R []).set C val)) i j
      = if i = R ∧ j = C then val else cellVal grid i j := by
  unfold cellVal
  by_cases hiR : i = R
  · subst hiR
    have houter : (grid.set i ((grid.getD i []).set C val)).getD i []
        = (grid.getD i []).set C val := by
      rw [List.getD_eq_getElem?_getD, List.getElem?_set_self hR, Option.getD_some]
    rw [houter]
    by_cases hjC : j = C
    · subst hjC
      have hinner : ((grid.getD i []).set j val).getD j 0 = val := by
        rw [List.getD_eq_getElem?_getD, List.getElem?_set_self hC, Option.getD_some]
      rw [hinner]
      simp
    · have hinner : ((grid.getD i []).set C val).getD j 0 = (grid.getD i []).getD j 0 := by
        rw [List.getD_eq_getElem?_getD, List.getElem?_set_ne (fun h => hjC h.symm),
          ← List.getD_eq_getElem?_getD]
      rw [hinner]
      simp [hjC]
  · have houter : (grid.set R ((grid.getD R []).set C val)).getD i [] = grid.getD i [] := by
      rw [List.getD_eq_getElem?_getD, List.getElem?_set_ne (fun h => hiR h.symm),
        ← List.getD_eq_getElem?_getD]
    rw [houter]
    simp [hiR]

/-- `_set_subpixel` preserves grid well-formedness. -/
theorem gridOk_set_subpixel (rows cols : ℕ) (grid : List (List ℕ))
    (hok : GridOk grid rows cols) (col row sx sy : ℤ) :
    GridOk (set_subpixel grid col row sx sy) rows cols := by
  obtain ⟨hlen, hrows⟩ := hok
  unfold set_subpixel
  split
  case isFalse => exact ⟨hlen, hrows⟩
  case isTrue hcond =>
    have hRlt : row.toNat < grid.length := by omega
    have hmemrow : grid.getD row.toNat [] ∈ grid := by
      rw [getD_of_lt _ _ _ hRlt]
      exact List.get_mem _ _ _
    obtain ⟨hrowlen, hrowelems⟩ := hrows _ hmemrow
    refine ⟨by simpa using hlen, ?_⟩
    intro r hr
    rcases List.mem_or_eq_of_mem_set hr with hmem | rfl
    · exact hrows r hmem
    · refine ⟨by simpa using hrowlen, ?_⟩
      intro m hm
      rcases List.mem_or_eq_of_mem_set hm with hmem2 | rfl
      · exact hrowelems m hmem2
      · have hold : (grid.getD row.toNat []).getD col.toNat 0 < 256 := by
          rcases lt_or_ge col.toNat (grid.getD row.toNat []).length with hc | hc
          · refine hrowelems _ ?_
            rw [getD_of_lt _ _ _ hc]
            exact List.get_mem _ _ _
          · rw [getD_of_ge _ _ _ hc]
            norm_num
        have hbit : DOT_BIT sx sy < 256 := DOT_BIT_lt sx sy
        have h8 : (256:ℕ) = 2 ^ 8 := by norm_num
        rw [h8] at hold hbit ⊢
        exact Nat.or_lt_two_pow hold hbit

/-- The per-subpixel loop body preserves grid well-formedness. -/
theorem gridOk_plotPoint (rows cols : ℕ) (w h : ℤ) (grid : List (List ℕ))
    (hok : GridOk grid rows cols) (q : ℤ × ℤ) :
    GridOk (plotPoint w h grid q) rows cols := by
  unfold plotPoint
  split
  · exact gridOk_set_subpixel rows cols grid hok _ _ _ _
  · exact hok

/-- An invariant preserved by the fold body is preserved by the fold. -/
theorem foldl_preserve {α β : Type} (P : β → Prop) (f : β → α → β)
    (hf : ∀ b a, P b → P (f b a)) :
    ∀ (l : List α) (b : β), P b → P (l.foldl f b) := by
  intro l
  induction l with
  | nil => intro b hb; exact hb
  | cons a t ih => intro b hb; exact ih (f b a) (hf b a hb)

/-- `_rasterize_line_to_braille` preserves grid well-formedness. -/
theorem gridOk_rasterize (rows cols : ℕ) (grid : List (List ℕ))
    (hok : GridOk grid rows cols) (p0 p1 : ℚ × ℚ) (w h : ℤ) :
    GridOk (rasterize_line_to_braille grid p0 p1 w h) rows cols := by
  rw [rasterize_eq_foldl]
  exact foldl_preserve _ _ (fun g q hg => gridOk_plotPoint rows cols w h g hg q) _ _ hok

/-- Visiting an in-canvas subpixel `(a, b)` writes, into the owning cell
`(a // 2, b // 4)`, the OR of the `_DOT_BIT` value for `(a % 2, b % 4)`
(both bounds guards pass). -/
theorem plotPoint_eq_set (cols rows : ℕ) (grid : List (List ℕ))
    (hok : GridOk grid rows cols) (a b : ℤ)
    (ha0 : 0 ≤ a) (ha1 : a < 2 * (cols:ℤ)) (hb0 : 0 ≤ b) (hb1 : b < 4 * (rows:ℤ)) :
    plotPoint (2 * (cols:ℤ)) (4 * (rows:ℤ)) grid (a, b)
      = grid.set (b / 4).toNat ((grid.getD (b / 4).toNat []).set (a / 2).toNat
          (((grid.getD (b / 4).toNat []).getD (a / 2).toNat 0) ||| DOT_BIT (a % 2) (b % 4))) := by
  obtain ⟨hlen, hrows⟩ := hok
  have hgrid_ne : grid ≠ [] := by
    intro hnil
    rw [hnil] at hlen
    simp at hlen
    omega
  have hhead : (grid.headD []).length = cols := by
    match grid, hgrid_ne with
    | g0 :: gs, _ => exact (hrows g0 (by simp)).1
  have h1 : (0:ℤ) ≤ b / 4 := by omega
  have h2 : b / 4 < (grid.length : ℤ) := by rw [hlen]; omega
  have h3 : (0:ℤ) ≤ a / 2 := by omega
  have h4 : a / 2 < ((grid.headD []).length : ℤ) := by rw [hhead]; omega
  rw [plotPoint,
    if_pos (show 0 ≤ (a, b).1 ∧ (a, b).1 < 2 * (cols:ℤ) ∧ 0 ≤ (a, b).2 ∧ (a, b).2 < 4 * (rows:ℤ)
      from ⟨ha0, ha1, hb0, hb1⟩),
    set_subpixel,
    if_pos (show 0 ≤ (a, b).2 / 4 ∧ (a, b).2 / 4 < (grid.length : ℤ) ∧
        0 ≤ (a, b).1 / 2 ∧ (a, b).1 / 2 < ((grid.headD []).length : ℤ)
      from ⟨h1, h2, h3, h4⟩)]

/-- Visiting the in-canvas subpixel `(a, b)` sets exactly its own dot bit:
afterwards, a canvas subpixel `(x, y)` is on iff it was on before or equals
`(a, b)`. -/
theorem subpixel_on_plotPoint (cols rows : ℕ) (grid : List (List ℕ))
    (hok : GridOk grid rows cols) (a b x y : ℤ)
    (ha0 : 0 ≤ a) (ha1 : a < 2 * (cols:ℤ)) (hb0 : 0 ≤ b) (hb1 : b < 4 * (rows:ℤ))
    (hx0 : 0 ≤ x) (hx1 : x < 2 * (cols:ℤ)) (hy0 : 0 ≤ y) (hy1 : y < 4 * (rows:ℤ)) :
    subpixel_on (plotPoint (2 * (cols:ℤ)) (4 * (rows:ℤ)) grid (a, b)) x y
      = (subpixel_on grid x y || decide (x = a ∧ y = b)) := by
  have hplot := plotPoint_eq_set cols rows grid hok a b ha0 ha1 hb0 hb1
  obtain ⟨hlen, hrows⟩ := hok
  have hRlt : (b / 4).toNat < grid.length := by rw [hlen]; omega
  have hrowmem : grid.getD (b / 4).toNat [] ∈ grid := by
    rw [getD_of_lt _ _ _ hRlt]
    exact List.get_mem _ _ _
  have hrowlen : (grid.getD (b / 4).toNat []).length = cols := (hrows _ hrowmem).1
  have hClt : (a / 2).toNat < (grid.getD (b / 4).toNat []).length := by rw [hrowlen]; omega
  rw [hplot]
  unfold subpixel_on
  rw [cellVal_set _ _ _ _ hRlt hClt]
  by_cases hcell : (y / 4).toNat = (b / 4).toNat ∧ (x / 2).toNat = (a / 2).toNat
  · obtain ⟨hRR, hCC⟩ := hcell
    rw [if_pos ⟨hRR, hCC⟩]
    have hm : cellVal grid (y / 4).toNat (x / 2).toNat
        = (grid.getD (b / 4).toNat []).getD (a / 2).toNat 0 := by
      unfold cellVal
      rw [hRR, hCC]
    rw [DOT_BIT_eq_two_pow, Nat.testBit_lor, Nat.testBit_two_pow, hm]
    congr 1
    rw [decide_eq_decide]
    constructor
    · intro hk
      obtain ⟨hs, ht⟩ := bitIndex_inj (a % 2) (b % 4) (x % 2) (y % 4)
        (by omega) (by omega) (by omega) (by omega)
        (by omega) (by omega) (by omega) (by omega) hk
      constructor <;> omega
    · rintro ⟨rfl, rfl⟩
      rfl
  · rw [if_neg hcell]
    have hne : ¬(x = a ∧ y = b) := by
      rintro ⟨rfl, rfl⟩
      exact hcell ⟨rfl, rfl⟩
    simp [hne]

/-- Folding the loop body over a list of in-canvas subpixels sets exactly
the dot bits of those subpixels, on top of what was already set. -/
theorem subpixel_on_foldl (cols rows : ℕ) (P : List (ℤ × ℤ))
    (hP : ∀ q ∈ P, 0 ≤ q.1 ∧ q.1 < 2 * (cols:ℤ) ∧ 0 ≤ q.2 ∧ q.2 < 4 * (rows:ℤ)) :
    ∀ (grid : List (List ℕ)), GridOk grid rows cols →
      ∀ x y : ℤ, 0 ≤ x → x < 2 * (cols:ℤ) → 0 ≤ y → y < 4 * (rows:ℤ) →
      (subpixel_on (P.foldl (plotPoint (2 * (cols:ℤ)) (4 * (rows:ℤ))) grid) x y = true
        ↔ subpixel_on grid x y = true ∨ (x, y) ∈ P) := by
  induction P with
  | nil => intro grid _ x y _ _ _ _; simp
  | cons q t ih =>
    intro grid hok x y hx0 hx1 hy0 hy1
    obtain ⟨a, b⟩ := q
    have hq := hP (a, b) (by simp)
    rw [List.foldl_cons,
      ih (fun r hr => hP r (by simp [hr]))
        (plotPoint (2 * (cols:ℤ)) (4 * (rows:ℤ)) grid (a, b))
        (gridOk_plotPoint rows cols _ _ grid hok (a, b)) x y hx0 hx1 hy0 hy1,
      subpixel_on_plotPoint cols rows grid hok a b x y
        hq.1 hq.2.1 hq.2.2.1 hq.2.2.2 hx0 hx1 hy0 hy1]
    simp only [Bool.or_eq_true, decide_eq_true_eq, List.mem_cons, Prod.mk.injEq]
    tauto

/-! ### Serialization lemmas -/

/-- `String.mk` keeps its character list. -/
theorem string_mk_data (l : List Char) : (String.mk l).data = l := rfl

/-- `String.mk` keeps the list length. -/
theorem string_mk_length (l : List Char) : (String.mk l).length = l.length := rfl

/-- `Char.ofNat` of a scalar value below the surrogate range keeps the
code point. -/
theorem char_toNat_ofNat {n : ℕ} (h : n < 55296) : (Char.ofNat n).toNat = n := by
  unfold Char.ofNat
  rw [dif_pos (Or.inl h : Nat.isValidChar n)]
  simp [Char.ofNatAux, Char.toNat, UInt32.toNat, BitVec.toNat_ofNatLt]

/-- Shape of `_braille_grid_to_str` on a well-formed grid: `rows`
newline-joined lines of `cols` characters, each a space or a braille-block
code point `0x2800..0x28FF`. -/
theorem braille_grid_to_str_shape (rows cols : ℕ) (grid : List (List ℕ))
    (hok : GridOk grid rows cols) :
    ∃ lines : List String,
      braille_grid_to_str grid = String.intercalate "\n" lines ∧
      lines.length = rows ∧
      ∀ s ∈ lines, s.length = cols ∧
        ∀ ch ∈ s.data, ch = ' ' ∨ (0x2800 ≤ ch.toNat ∧ ch.toNat ≤ 0x28FF) := by
  obtain ⟨hlen, hrows⟩ := hok
  refine ⟨_, rfl, ?_, ?_⟩
  · simp [hlen]
  · intro s hs
    simp only [List.mem_map, List.mem_range] at hs
    obtain ⟨r, hr, rfl⟩ := hs
    have hgl : ¬grid.length = 0 := by omega
    have hhead : (grid.headD []).length = cols := by
      match grid, hgl with
      | g0 :: gs, _ => exact (hrows g0 (by simp)).1
    have hrmem : grid.getD r [] ∈ grid := by
      rw [getD_of_lt _ _ _ hr]
      exact List.get_mem _ _ _
    obtain ⟨hrowlen, hrowelems⟩ := hrows _ hrmem
    constructor
    · rw [string_mk_length, List.length_map, List.length_range, if_neg hgl, hhead]
    · intro ch hch
      rw [string_mk_data] at hch
      simp only [List.mem_map, List.mem_range] at hch
      obtain ⟨c, hc, rfl⟩ := hch
      rw [if_neg hgl, hhead] at hc
      have hcode : (grid.getD r []).getD c 0 < 256 := by
        refine hrowelems _ ?_
        rw [getD_of_lt (grid.getD r []) 0 c (by rw [hrowlen]; exact hc)]
        exact List.get_mem _ _ _
      by_cases h0 : (grid.getD r []).getD c 0 ≠ 0
      · right
        rw [if_pos h0, char_toNat_ofNat (by unfold BRAILLE_BASE; omega)]
        unfold BRAILLE_BASE
        omega
      · left
        rw [if_neg h0]

/-- `draw_lines` preserves grid well-formedness. -/
theorem gridOk_draw_linestring (rows cols : ℕ) (grid : List (List ℕ))
    (hok : GridOk grid rows cols) (coords : List (ℚ × ℚ)) (w h : ℤ) :
    GridOk (draw_linestring grid coords w h) rows cols := by
  unfold draw_linestring
  exact foldl_preserve _ _ (fun g pq hg => gridOk_rasterize rows cols g hg pq.1 pq.2 w h) _ _ hok

/-- The grid produced by the drawing phase of `render` is a well-formed
`height × width` grid. -/
theorem gridOk_render_draw_geoms (viewport : Viewport) (geometries : List (List (ℚ × ℚ)))
    (width height : ℤ) :
    GridOk (render_draw_geoms viewport geometries width height) height.toNat width.toNat := by
  simp only [render_draw_geoms]
  refine foldl_preserve (fun g => GridOk g height.toNat width.toNat) _ ?_ _ _
    (gridOk_empty _ _)
  intro g geom hg
  split
  · exact hg
  · exact gridOk_draw_linestring _ _ _ hg _ _ _

/-! ### Claim theorems: rasterizer and renderer -/

/-- Claim C3: for a segment whose Bresenham path — including both truncated
integer endpoints, which are its first and last points — lies inside the
`2·cols × 4·rows` subpixel canvas, rasterizing it into the all-zero grid
sets a canvas subpixel's dot bit iff that subpixel is on the path, and the
path visits no subpixel twice. -/
theorem rasterize_segment_sets_exactly_path_bits (p0 p1 : ℚ × ℚ) (cols rows : ℕ)
    (hin : ∀ q ∈ bresenham_path p0 p1,
      0 ≤ q.1 ∧ q.1 < 2 * (cols:ℤ) ∧ 0 ≤ q.2 ∧ q.2 < 4 * (rows:ℤ)) :
    (bresenham_path p0 p1).Nodup ∧
    ∀ x y : ℤ, 0 ≤ x → x < 2 * (cols:ℤ) → 0 ≤ y → y < 4 * (rows:ℤ) →
      (subpixel_on (rasterize_line_to_braille (empty_braille_grid cols rows) p0 p1
          (2 * (cols:ℤ)) (4 * (rows:ℤ))) x y = true
        ↔ (x, y) ∈ bresenham_path p0 p1) := by
  refine ⟨(bresenham_path_basic p0 p1).2.2, ?_⟩
  intro x y hx0 hx1 hy0 hy1
  rw [rasterize_eq_foldl,
    subpixel_on_foldl cols rows _ hin _ (gridOk_empty cols rows) x y hx0 hx1 hy0 hy1,
    subpixel_on_empty]
  simp

/-- Witness for C3 on the segment `(0,0) → (3,2)` in a `2 × 1`-cell
(4 × 4-subpixel) canvas. -/
theorem rasterize_segment_sets_exactly_path_bits_witness :
    (∀ q ∈ bresenham_path ((0:ℚ), (0:ℚ)) ((3:ℚ), (2:ℚ)),
      0 ≤ q.1 ∧ q.1 < 2 * ((2:ℕ):ℤ) ∧ 0 ≤ q.2 ∧ q.2 < 4 * ((1:ℕ):ℤ)) ∧
    ((bresenham_path ((0:ℚ), (0:ℚ)) ((3:ℚ), (2:ℚ))).Nodup ∧
    ∀ x y : ℤ, 0 ≤ x → x < 2 * ((2:ℕ):ℤ) → 0 ≤ y → y < 4 * ((1:ℕ):ℤ) →
      (subpixel_on (rasterize_line_to_braille (empty_braille_grid 2 1)
          ((0:ℚ), (0:ℚ)) ((3:ℚ), (2:ℚ))
          (2 * ((2:ℕ):ℤ)) (4 * ((1:ℕ):ℤ))) x y = true
        ↔ (x, y) ∈ bresenham_path ((0:ℚ), (0:ℚ)) ((3:ℚ), (2:ℚ)))) :=
  ⟨by decide, rasterize_segment_sets_exactly_path_bits ((0:ℚ), (0:ℚ)) ((3:ℚ), (2:ℚ)) 2 1
    (by decide)⟩

/-- Claim C4: each out-of-canvas subpixel on the path is skipped — the
rasterization equals the fold of the plotting body over only the in-canvas
path points — while the traversal runs to completion (the path starts at
the truncated start point and ends at the truncated endpoint), and both
endpoints are visited exactly once. -/
theorem rasterize_skips_oob_visits_endpoints_once (grid : List (List ℕ))
    (p0 p1 : ℚ × ℚ) (width_px height_px : ℤ) :
    rasterize_line_to_braille grid p0 p1 width_px height_px
      = ((bresenham_path p0 p1).filter
          (fun q => decide (0 ≤ q.1 ∧ q.1 < width_px ∧ 0 ≤ q.2 ∧ q.2 < height_px))).foldl
          (plotPoint width_px height_px) grid ∧
    (bresenham_path p0 p1).head? = some (pyInt p0.1, pyInt p0.2) ∧
    (bresenham_path p0 p1).getLast? = some (pyInt p1.1, pyInt p1.2) ∧
    (bresenham_path p0 p1).countP (fun q => decide (q = (pyInt p0.1, pyInt p0.2))) = 1 ∧
    (bresenham_path p0 p1).countP (fun q => decide (q = (pyInt p1.1, pyInt p1.2))) = 1 := by
  obtain ⟨hh, hl, hnd⟩ := bresenham_path_basic p0 p1
  refine ⟨?_, hh, hl, ?_, ?_⟩
  · rw [rasterize_eq_foldl]
    refine foldl_filter_of_id _ _ ?_ _ _
    intro g q hq
    have hq2 : ¬(0 ≤ q.1 ∧ q.1 < width_px ∧ 0 ≤ q.2 ∧ q.2 < height_px) := by
      simpa using hq
    rw [plotPoint, if_neg hq2]
  · exact List.count_eq_one_of_mem hnd
      (List.mem_of_mem_head? (show _ ∈ (bresenham_path p0 p1).head? by rw [hh]; rfl))
  · exact List.count_eq_one_of_mem hnd
      (List.mem_of_mem_getLast? (show _ ∈ (bresenham_path p0 p1).getLast? by rw [hl]; rfl))

/-- Claim C6: for an in-canvas subpixel `(x, y)` the loop body ORs, into
the owning cell `(x // 2, y // 4)`, exactly the `_DOT_BIT` table value for
`(x % 2, y % 4)`, and the table is bit-for-bit the standard one:
`1, 2, 4, 64` for the left column and `8, 16, 32, 128` for the right. -/
theorem plot_uses_standard_dot_bit_table (cols rows : ℕ) (grid : List (List ℕ))
    (hok : GridOk grid rows cols) (x y : ℤ)
    (hx0 : 0 ≤ x) (hx1 : x < 2 * (cols:ℤ)) (hy0 : 0 ≤ y) (hy1 : y < 4 * (rows:ℤ)) :
    plotPoint (2 * (cols:ℤ)) (4 * (rows:ℤ)) grid (x, y)
      = grid.set (y / 4).toNat ((grid.getD (y / 4).toNat []).set (x / 2).toNat
          (((grid.getD (y / 4).toNat []).getD (x / 2).toNat 0) ||| DOT_BIT (x % 2) (y % 4))) ∧
    DOT_BIT 0 0 = 1 ∧ DOT_BIT 0 1 = 2 ∧ DOT_BIT 0 2 = 4 ∧ DOT_BIT 0 3 = 64 ∧
    DOT_BIT 1 0 = 8 ∧ DOT_BIT 1 1 = 16 ∧ DOT_BIT 1 2 = 32 ∧ DOT_BIT 1 3 = 128 :=
  ⟨plotPoint_eq_set cols rows grid hok x y hx0 hx1 hy0 hy1,
    rfl, rfl, rfl, rfl, rfl, rfl, rfl, rfl⟩

/-- Witness for C6 at subpixel `(1, 2)` of a one-cell canvas. -/
theorem plot_uses_standard_dot_bit_table_witness :
    GridOk (empty_braille_grid 1 1) 1 1 ∧
    ((0:ℤ) ≤ 1 ∧ (1:ℤ) < 2 * ((1:ℕ):ℤ) ∧ (0:ℤ) ≤ 2 ∧ (2:ℤ) < 4 * ((1:ℕ):ℤ)) ∧
    (plotPoint (2 * ((1:ℕ):ℤ)) (4 * ((1:ℕ):ℤ)) (empty_braille_grid 1 1) (1, 2)
      = (empty_braille_grid 1 1).set ((2:ℤ) / 4).toNat
          (((empty_braille_grid 1 1).getD ((2:ℤ) / 4).toNat []).set ((1:ℤ) / 2).toNat
            ((((empty_braille_grid 1 1).getD ((2:ℤ) / 4).toNat []).getD ((1:ℤ) / 2).toNat 0)
              ||| DOT_BIT ((1:ℤ) % 2) ((2:ℤ) % 4))) ∧
    DOT_BIT 0 0 = 1 ∧ DOT_BIT 0 1 = 2 ∧ DOT_BIT 0 2 = 4 ∧ DOT_BIT 0 3 = 64 ∧
    DOT_BIT 1 0 = 8 ∧ DOT_BIT 1 1 = 16 ∧ DOT_BIT 1 2 = 32 ∧ DOT_BIT 1 3 = 128) :=
  ⟨gridOk_empty 1 1, ⟨by decide, by decide, by decide, by decide⟩,
    plot_uses_standard_dot_bit_table 1 1 (empty_braille_grid 1 1) (gridOk_empty 1 1) 1 2
      (by decide) (by decide) (by decide) (by decide)⟩

/-- Claim C7: `render` with non-positive width or height returns the empty
string immediately, for every viewport, geometry list and point list. -/
theorem render_nonpositive_size_empty (viewport : Viewport)
    (geometries : List (List (ℚ × ℚ))) (width height : ℤ) (points : List MapPoint)
    (h : width ≤ 0 ∨ height ≤ 0) :
    renderer_render viewport geometries width height points = "" := by
  rw [renderer_render, if_pos h]

/-- Witness for C7 at width 0, height 5. -/
theorem render_nonpositive_size_empty_witness :
    ((0:ℤ) ≤ 0 ∨ (5:ℤ) ≤ 0) ∧
    renderer_render ⟨0, 0, 1⟩ [] 0 5 [] = "" :=
  ⟨Or.inl le_rfl, render_nonpositive_size_empty ⟨0, 0, 1⟩ [] 0 5 [] (Or.inl le_rfl)⟩

/-- Claim C10: for positive dimensions and a valid viewport (the data
model requires `scale > 0`), `render` on a plain list of linestrings
returns exactly `height` newline-joined rows of exactly `width` characters
each, every character a space or a braille-block code point. -/
theorem render_output_shape (viewport : Viewport) (geometries : List (List (ℚ × ℚ)))
    (width height : ℤ) (points : List MapPoint)
    (hw : 0 < width) (hh : 0 < height) (hm : 0 < viewport.meters_per_pixel) :
    ∃ lines : List String,
      renderer_render viewport geometries width height points
          = String.intercalate "\n" lines ∧
      lines.length = height.toNat ∧
      ∀ s ∈ lines, s.length = width.toNat ∧
        ∀ ch ∈ s.data, ch = ' ' ∨ (0x2800 ≤ ch.toNat ∧ ch.toNat ≤ 0x28FF) := by
  obtain ⟨lines, h1, h2, h3⟩ := braille_grid_to_str_shape height.toNat width.toNat
    (render_draw_geoms viewport geometries width height)
    (gridOk_render_draw_geoms viewport geometries width height)
  refine ⟨lines, ?_, h2, h3⟩
  rw [renderer_render, if_neg (by omega), h1]

/-- Witness for C10 at a `2 × 1` display, empty geometry. -/
theorem render_output_shape_witness :
    (0:ℤ) < 2 ∧ (0:ℤ) < 1 ∧ (0:ℚ) < (Viewport.mk 0 0 1).meters_per_pixel ∧
    (∃ lines : List String,
      renderer_render ⟨0, 0, 1⟩ [] 2 1 [] = String.intercalate "\n" lines ∧
      lines.length = (1:ℤ).toNat ∧
      ∀ s ∈ lines, s.length = (2:ℤ).toNat ∧
        ∀ ch ∈ s.data, ch = ' ' ∨ (0x2800 ≤ ch.toNat ∧ ch.toNat ≤ 0x28FF)) :=
  ⟨by decide, by decide, by decide,
    render_output_shape ⟨0, 0, 1⟩ [] 2 1 [] (by decide) (by decide) (by decide)⟩

end GeoTui
